import Mathlib

/-!
Shallow embedding of `src/Weather Visualization/weather.js` (the
Map-API-Visualization repository) together with proofs about its data-fetch
pipeline, color mapper, renderer and grid generator.

Modelling conventions:
* JavaScript numbers appearing in this program are exact in IEEE double
  precision (all constants are multiples of 1/4 or of 1/10, and all
  arithmetic the embedded fragments perform on them is exact), so they are
  embedded as rationals (`ℚ`).
* `Math.floor` is `Rat.floor`; `Math.round x` is `⌊x + 1/2⌋` (JavaScript
  rounds half-way cases toward +∞), and `toFixed(4)` string keys are
  embedded as the scaled integer `⌊q * 10000 + 1/2⌋` — injective exactly
  when the two formatted strings coincide, for the values this program
  produces.
* Fallible / possibly-undefined data uses `Option`: a missing JSON field is
  `none`; JavaScript truthiness of an object/array field is `Option.isSome`
  (note an *empty* array is truthy in JavaScript).
* The stateful fetch loop of `WeatherDataManager.fetchData` becomes a
  fuel-indexed executable loop over an explicit work queue, parameterised by
  an oracle giving the outcome of each HTTP attempt, and recording a trace
  of observable events (requests, progress callbacks, delays, requeues).
-/

namespace WeatherViz

/-- An RGBA color; `r g b a` are the four numbers inside `rgba(...)`. -/
structure Color where
  r : ℚ
  g : ℚ
  b : ℚ
  a : ℚ
deriving DecidableEq, Repr

/-- A `[latitude, longitude]` pair. -/
abbrev Coord := ℚ × ℚ

/-- The `hourly` object of one element of the API response. -/
structure Hourly where
  temperature_2m : Option (List ℚ)
deriving DecidableEq, Repr

/-- One element of the JSON-array API response; `hourly` may be absent. -/
structure ApiPoint where
  hourly : Option Hourly
deriving DecidableEq, Repr

/-- A record pushed onto `this.weatherData`: `coords` is `chunk[index]`
(`none` models JavaScript `undefined` when the index is out of range). -/
structure WeatherRecord where
  coords : Option Coord
  temperatures : List ℚ
deriving DecidableEq, Repr

/-! ## Color mapper: `WeatherRenderer.getTemperatureColor` -/

/-- The fixed 15-anchor temperature → color table (`colorTable` /
`colorStops` in the source, in insertion order). -/
def colorStops : List (ℚ × Color) :=
  [(-20, ⟨138, 43, 226, 4/5⟩),
   (-10, ⟨75, 0, 130, 4/5⟩),
   (0, ⟨0, 0, 255, 4/5⟩),
   (10, ⟨0, 100, 255, 4/5⟩),
   (20, ⟨0, 150, 255, 4/5⟩),
   (30, ⟨0, 200, 255, 4/5⟩),
   (40, ⟨0, 255, 200, 4/5⟩),
   (50, ⟨0, 255, 0, 4/5⟩),
   (60, ⟨173, 255, 47, 4/5⟩),
   (70, ⟨255, 255, 0, 4/5⟩),
   (80, ⟨255, 200, 0, 4/5⟩),
   (90, ⟨255, 150, 0, 4/5⟩),
   (100, ⟨255, 69, 0, 4/5⟩),
   (110, ⟨255, 0, 0, 4/5⟩),
   (120, ⟨139, 0, 0, 4/5⟩)]

/-- One interpolated RGB channel:
`Math.floor(c + (color2[j] - c) * factor)`. -/
def interpChannel (c1 c2 factor : ℚ) : ℚ :=
  ((⌊c1 + (c2 - c1) * factor⌋ : ℤ) : ℚ)

/-- The interpolated color between two stops: RGB channels floored, the
alpha channel (`j === 3`) kept fractional. -/
def interpColor (t1 : ℚ) (c1 : Color) (t2 : ℚ) (c2 : Color) (temp : ℚ) : Color :=
  let factor := (temp - t1) / (t2 - t1)
  ⟨interpChannel c1.r c2.r factor,
   interpChannel c1.g c2.g factor,
   interpChannel c1.b c2.b factor,
   c1.a + (c2.a - c1.a) * factor⟩

/-- The `for (let i = 0; i < colorStops.length - 1; i++)` search: the first
adjacent pair with `temp ≤ colorStops[i+1][0]` is interpolated; falling off
the end returns `'transparent'` (modelled as `none`). -/
def interpStops : List (ℚ × Color) → ℚ → Option Color
  | (t1, c1) :: (t2, c2) :: rest, temp =>
      if temp ≤ t2 then some (interpColor t1 c1 t2 c2 temp)
      else interpStops ((t2, c2) :: rest) temp
  | _, _ => none

/-- Model of `WeatherRenderer.getTemperatureColor`: clamp below the first anchor and
above the last anchor, otherwise interpolate between the surrounding stops.
`none` stands for the `'transparent'` fallback string. -/
def getTemperatureColor (temp : ℚ) : Option Color :=
  let first := colorStops.getD 0 (0, ⟨0, 0, 0, 0⟩)
  let last := colorStops.getD (colorStops.length - 1) (0, ⟨0, 0, 0, 0⟩)
  if temp ≤ first.1 then some first.2
  else if last.1 ≤ temp then some last.2
  else interpStops colorStops temp

/-! ## Data fetcher: `WeatherDataManager.fetchData` -/

/-- Outcome of one HTTP attempt for a chunk, as observed by the `try` block:
either the awaited/parsed JSON value (`some pts` when `Array.isArray(data)`
holds, `none` for a non-array JSON document), or a thrown error (network
failure, the explicit non-2xx `throw`, or a parse failure). -/
inductive Outcome where
  | ok (data : Option (List ApiPoint))
  | err
deriving DecidableEq, Repr

/-- Observable events of the fetch routine, in program order: an HTTP
request for a chunk, an `updateProgress` callback, the 100 ms
rate-limiting delay, and the re-enqueueing of a failed chunk. -/
inductive Ev where
  | req (chunk : List Coord)
  | progress (value : ℚ)
  | delay (ms : ℕ)
  | requeue (chunk : List Coord)
deriving DecidableEq, Repr

/-- The constructor kind of an event (used to state trace-shape facts
without normalising the rational progress payloads). -/
inductive EvKind where
  | reqK
  | progressK
  | delayK
  | requeueK
deriving DecidableEq, Repr

/-- Projection of an event onto its kind. -/
def Ev.kind : Ev → EvKind
  | .req _ => .reqK
  | .progress _ => .progressK
  | .delay _ => .delayK
  | .requeue _ => .requeueK

/-- The `data.forEach((point, index) => ...)` body, carrying the running
`index`: a record is pushed exactly when `point.hourly` and
`point.hourly.temperature_2m` are both truthy (present — in JavaScript an
empty array is truthy), pairing `chunk[index]` with the series. -/
def recordsForAux (chunk : List Coord) : ℕ → List ApiPoint → List WeatherRecord
  | _, [] => []
  | i, pt :: rest =>
    match pt.hourly with
    | some h =>
      match h.temperature_2m with
      | some temps => ⟨chunk[i]?, temps⟩ :: recordsForAux chunk (i + 1) rest
      | none => recordsForAux chunk (i + 1) rest
    | none => recordsForAux chunk (i + 1) rest

/-- The records appended for one parsed JSON-array response `pts` of a
chunk. -/
def recordsFor (chunk : List Coord) (pts : List ApiPoint) : List WeatherRecord :=
  recordsForAux chunk 0 pts

/-- The records appended for one successful chunk: nothing unless the JSON
document is an array (`Array.isArray(data)`). -/
def recordsOf (chunk : List Coord) : Option (List ApiPoint) → List WeatherRecord
  | none => []
  | some pts => recordsFor chunk pts

/-- The loop `for (let i = 0; i < coordinates.length; i += 100) chunks.push(slice)`:
split into chunks of at most `maxPointsPerRequest = 100`. -/
def chunksOf100 : List Coord → List (List Coord)
  | [] => []
  | l@(_ :: _) => l.take 100 :: chunksOf100 (l.drop 100)
termination_by l => l.length
decreasing_by simp_all [List.length_drop]; omega

/-- The `for (const chunk of chunks)` loop of `fetchData`. JavaScript's
`for...of` iterates an array that grows while being iterated, so pushing a
failed chunk makes the loop revisit it: the loop is a work queue. The
`oracle` gives the outcome of the `k`-th HTTP request (`k` counts all
requests issued so far) for the requested chunk; `p` is `processedChunks`,
`total` the initial `totalChunks`, `acc` the `this.weatherData`
accumulator and `tr` the event trace so far. Fuel bounds the number of
iterations; `(none, tr)` means the loop was still running when the fuel
ran out. -/
def fetchLoop (oracle : List Coord → ℕ → Outcome) :
    ℕ → List (List Coord) → ℕ → ℕ → ℕ → List WeatherRecord → List Ev →
      Option (List WeatherRecord) × List Ev
  | _, [], _, _, _, acc, tr => (some acc, tr)
  | 0, _ :: _, _, _, _, _, tr => (none, tr)
  | fuel + 1, chunk :: rest, k, p, total, acc, tr =>
    match oracle chunk k with
    | .ok data =>
        fetchLoop oracle fuel rest (k + 1) (p + 1) total
          (acc ++ recordsOf chunk data)
          (tr ++ [Ev.req chunk,
                  Ev.progress ((p + 1 : ℚ) / (total : ℚ) * 100),
                  Ev.delay 100])
    | .err =>
        fetchLoop oracle fuel (rest ++ [chunk]) (k + 1) p total acc
          (tr ++ [Ev.req chunk, Ev.requeue chunk])

/-- Model of `WeatherDataManager.fetchData`: chunk the coordinates, then run the
work-queue loop from the initial state. -/
def fetchData (oracle : List Coord → ℕ → Outcome) (fuel : ℕ)
    (coordinates : List Coord) : Option (List WeatherRecord) × List Ev :=
  let chunks := chunksOf100 coordinates
  fetchLoop oracle fuel chunks 0 0 chunks.length [] []

/-- The progress value carried by an event, if any. -/
def Ev.progressValue : Ev → Option ℚ
  | .progress v => some v
  | _ => none

/-- Whether an event is an HTTP request. -/
def Ev.isReq : Ev → Bool
  | .req _ => true
  | _ => false

/-- The progress values reported to the `updateProgress` callback, in
order. -/
def progressOf (tr : List Ev) : List ℚ :=
  tr.filterMap Ev.progressValue

/-- The number of HTTP requests in a trace. -/
def reqCount (tr : List Ev) : ℕ :=
  tr.countP fun e => e.isReq

/-! ## Renderer: `WeatherRenderer.draw` / `WeatherRenderer.render` -/

/-- A container-pixel point, the result of `latLngToContainerPoint`. -/
structure CPoint where
  x : ℚ
  y : ℚ
deriving DecidableEq, Repr

/-- One `ctx.fillRect` command issued by `draw`: position, size and fill
style (`none` is the `'transparent'` fill). -/
structure RectCmd where
  x : ℚ
  y : ℚ
  w : ℚ
  h : ℚ
  color : Option Color
deriving DecidableEq, Repr

/-- The color used for a record at the displayed hour:
`point.temperatures[this.currentHour]` may be `undefined` (out of range),
in which case every comparison inside `getTemperatureColor` is false and
the `'transparent'` fallback is returned. -/
def colorAt : Option ℚ → Option Color
  | none => none
  | some t => getTemperatureColor t

/-- Model of `WeatherRenderer.draw`, as the list of `fillRect` commands it issues,
in order. `proj` abstracts `this.map.latLngToContainerPoint` (a record's
possibly-undefined `coords` is passed through as-is); `north`/`west` are
`bounds.getNorth()`/`bounds.getWest()`. The rectangle size is derived once
per draw from the two projected reference points half a degree apart, and
each record's rectangle is centred on its projected pixel. -/
def draw (proj : Option Coord → CPoint) (north west : ℚ)
    (weatherData : List WeatherRecord) (currentHour : ℕ) : List RectCmd :=
  let topLeft := proj (some (north, west))
  let bottomRight := proj (some (north - 1/2, west + 1/2))
  let rectWidth := |bottomRight.x - topLeft.x|
  let rectHeight := |bottomRight.y - topLeft.y|
  weatherData.map fun point =>
    let color := colorAt point.temperatures[currentHour]?
    let pixelPoint := proj point.coords
    ⟨pixelPoint.x - rectWidth / 2, pixelPoint.y - rectHeight / 2,
     rectWidth, rectHeight, color⟩

/-- Model of `WeatherRenderer.render`: replace the state with the given data and
hour and redraw. -/
def render (proj : Option Coord → CPoint) (north west : ℚ)
    (weatherData : List WeatherRecord) (hour : ℕ) : List RectCmd :=
  draw proj north west weatherData hour

/-! ## Grid generator: `generateOptimizedGrid` -/

/-- The deduplication key: `toFixed(4)` string keys are embedded as the
coordinate scaled by `10⁴` and rounded to an integer (for the values this
program produces — exact multiples of `1/4` — two coordinates have the
same formatted string exactly when they have the same `toKey`). -/
def toKey (q : ℚ) : ℤ := ⌊q * 10000 + 1/2⌋

/-- The key of a `[lat, lon]` point. -/
def pointKey (p : Coord) : ℤ × ℤ := (toKey p.1, toKey p.2)

/-- The rounding `Math.round(q * 10000) / 10000` (JavaScript `Math.round x = ⌊x + 1/2⌋`,
half-way cases toward `+∞`). -/
def jsRound4 (q : ℚ) : ℚ := ((⌊q * 10000 + 1/2⌋ : ℤ) : ℚ) / 10000

/-- The loop `for (let v = start; v ≤ stop; v += step)`, collecting the loop
variable's values. All values this program steps through are exact
multiples of `1/4` well inside double precision, so the JavaScript float
accumulation is exact and `ℚ` models it faithfully. `fuel` bounds the
iteration count; it is instantiated strictly above the number of
iterations. -/
def seqFrom (stop step : ℚ) : ℚ → ℕ → List ℚ
  | _, 0 => []
  | start, n + 1 =>
    if start ≤ stop then start :: seqFrom stop step (start + step) n else []

/-- The latitude values of the outer loop: `24.0` to `50.0`, step `0.25`. -/
def latValues : List ℚ := seqFrom 50 (1/4) 24 200

/-- The longitude values of the inner loop: `-126.0` to `-66.0`,
step `0.25`. -/
def lonValues : List ℚ := seqFrom (-66) (1/4) (-126) 300

/-- The JavaScript comparator `(a, b) => a[1] - b[1]`: sort ascending by
longitude. -/
def lonLe (a b : Coord) : Bool := a.2 ≤ b.2

/-- The inner `for (lon ...)` loop for one `lat`: push the rounded pair and
record its key, unless the key was already seen. Returns the row (in push
order) and the updated `seen` set (most recent first). -/
def buildRow (lat : ℚ) : List ℚ → List (ℤ × ℤ) → List Coord × List (ℤ × ℤ)
  | [], seen => ([], seen)
  | lon :: rest, seen =>
    let key := (toKey lat, toKey lon)
    if key ∈ seen then buildRow lat rest seen
    else
      let next := buildRow lat rest (key :: seen)
      ((jsRound4 lat, jsRound4 lon) :: next.1, next.2)

/-- The outer `for (lat ...)` loop: build each row, sort it by longitude,
and append it to the grid (`grid.push(...row)`). -/
def buildGrid : List ℚ → List ℚ → List (ℤ × ℤ) → List Coord →
    List Coord × List (ℤ × ℤ)
  | [], _, seen, grid => (grid, seen)
  | lat :: rest, lons, seen, grid =>
    let row := buildRow lat lons seen
    buildGrid rest lons row.2 (grid ++ row.1.mergeSort lonLe)

/-- The 14 hard-coded extra points (Great Lakes, border and coastal
coverage). -/
def extraPoints : List Coord :=
  [(45.5, -87), (46.5, -84.5), (43.5, -82.5), (42.5, -81.5), (44, -76.5),
   (49, -123), (48.5, -120), (47.5, -95), (45, -83), (44.5, -75),
   (48.5, -124.5), (40.5, -124), (25, -81), (44, -67)]

/-- The loop `extraPoints.forEach(...)`: append each extra point (unrounded) unless
its key is already in `seen`. -/
def addExtras : List Coord → List Coord → List (ℤ × ℤ) → List Coord
  | grid, [], _ => grid
  | grid, p :: rest, seen =>
    if pointKey p ∈ seen then addExtras grid rest seen
    else addExtras (grid ++ [p]) rest (pointKey p :: seen)

/-- Model of `generateOptimizedGrid`: the primary lattice followed by the extra
points that were not already present. -/
def generateOptimizedGrid : List Coord :=
  let primary := buildGrid latValues lonValues [] []
  addExtras primary.1 extraPoints primary.2

/-- The color table anchor at position `i` (`colorStops[i]`). -/
def stopAt (i : ℕ) : ℚ × Color := colorStops.getD i (0, ⟨0, 0, 0, 0⟩)

/-- Channel value `x` lies strictly between `a` and `b` when they differ, and equals them
when they coincide. -/
def betweenChannel (a b x : ℚ) : Prop :=
  (a = b ∧ x = a) ∨ (a < b ∧ a < x ∧ x < b) ∨ (b < a ∧ b < x ∧ x < a)

/-! ## Theorems -/

/-- C7. `colorFor(0)` returns exactly the color `rgba(0,0,255,0.8)`:
interpolation at an interior anchor temperature yields that anchor's exact
color. -/
theorem colorFor_zero_exact : getTemperatureColor 0 = some ⟨0, 0, 255, 4/5⟩ := by
  norm_num [getTemperatureColor, colorStops, interpStops, interpColor, interpChannel]

/-- C6. For every temperature `t ≤ -20` (the lowest anchor threshold),
`colorFor(t)` is exactly the first anchor's color `rgba(138,43,226,0.8)`;
for every `t ≥ 120` (the highest threshold), it is exactly the last
anchor's color `rgba(139,0,0,0.8)`. -/
theorem colorFor_clamps (t : ℚ) :
    (t ≤ -20 → getTemperatureColor t = some ⟨138, 43, 226, 4/5⟩) ∧
    (120 ≤ t → getTemperatureColor t = some ⟨139, 0, 0, 4/5⟩) := by
  have hdef : getTemperatureColor t =
      if t ≤ -20 then some ⟨138, 43, 226, 4/5⟩
      else if (120 : ℚ) ≤ t then some ⟨139, 0, 0, 4/5⟩
      else interpStops colorStops t := rfl
  constructor
  · intro h
    rw [hdef, if_pos h]
  · intro h
    rw [hdef, if_neg (by linarith), if_pos h]

/-- C6 witness. In particular `colorFor(-20)`, `colorFor(-100)`,
`colorFor(120)` and `colorFor(500)` return those exact colors. -/
theorem colorFor_clamps_witness :
    getTemperatureColor (-20) = some ⟨138, 43, 226, 4/5⟩ ∧
    getTemperatureColor (-100) = some ⟨138, 43, 226, 4/5⟩ ∧
    getTemperatureColor 120 = some ⟨139, 0, 0, 4/5⟩ ∧
    getTemperatureColor 500 = some ⟨139, 0, 0, 4/5⟩ :=
  ⟨(colorFor_clamps (-20)).1 (by norm_num),
   (colorFor_clamps (-100)).1 (by norm_num),
   (colorFor_clamps 120).2 (by norm_num),
   (colorFor_clamps 500).2 (by norm_num)⟩

/-- C3 counterexample. The claim "each RGB channel of the midpoint
color is strictly between the corresponding channels of the two adjacent
anchors" fails at the pair `(-10, rgba(75,0,130,0.8))`,
`(0, rgba(0,0,255,0.8))`: at the midpoint `-5` the green channel is `0`,
which is not strictly between `0` and `0`. -/
theorem colorFor_midpoint_counterexample :
    stopAt 1 = (-10, ⟨75, 0, 130, 4/5⟩) ∧
    stopAt 2 = (0, ⟨0, 0, 255, 4/5⟩) ∧
    getTemperatureColor ((-10 + 0) / 2) = some ⟨37, 0, 192, 4/5⟩ ∧
    ¬((0 : ℚ) < 0 ∧ (0 : ℚ) < 0) := by
  refine ⟨by norm_num [stopAt, colorStops], by norm_num [stopAt, colorStops], ?_, by norm_num⟩
  norm_num [getTemperatureColor, colorStops, interpStops, interpColor, interpChannel]

set_option maxHeartbeats 3200000 in
/-- C3 (amended). For every two anchors adjacent in the 15-entry color
table, `colorFor` at the midpoint of their thresholds returns a color each
of whose RGB channels lies strictly between the corresponding channels of
the two anchors whenever those differ (and equals them when the two
anchors agree on that channel); the alpha channel is the exact unfloored
interpolation. -/
theorem colorFor_midpoint_between (i : Fin 14) :
    betweenChannel (stopAt i.1).2.r (stopAt (i.1 + 1)).2.r
      (((getTemperatureColor (((stopAt i.1).1 + (stopAt (i.1 + 1)).1) / 2)).getD
        ⟨0, 0, 0, 0⟩).r) ∧
    betweenChannel (stopAt i.1).2.g (stopAt (i.1 + 1)).2.g
      (((getTemperatureColor (((stopAt i.1).1 + (stopAt (i.1 + 1)).1) / 2)).getD
        ⟨0, 0, 0, 0⟩).g) ∧
    betweenChannel (stopAt i.1).2.b (stopAt (i.1 + 1)).2.b
      (((getTemperatureColor (((stopAt i.1).1 + (stopAt (i.1 + 1)).1) / 2)).getD
        ⟨0, 0, 0, 0⟩).b) ∧
    ((getTemperatureColor (((stopAt i.1).1 + (stopAt (i.1 + 1)).1) / 2)).getD
        ⟨0, 0, 0, 0⟩).a =
      (stopAt i.1).2.a + ((stopAt (i.1 + 1)).2.a - (stopAt i.1).2.a) / 2 ∧
    getTemperatureColor (((stopAt i.1).1 + (stopAt (i.1 + 1)).1) / 2) ≠ none := by
  fin_cases i <;>
    norm_num [stopAt, colorStops, getTemperatureColor, interpStops, interpColor,
      interpChannel, betweenChannel] <;>
    exact fun h => Option.noConfusion h

/-- Membership in the record list produced by the `data.forEach` body,
with the running start index `i`. -/
theorem recordsForAux_mem (chunk : List Coord) (r : WeatherRecord) :
    ∀ (pts : List ApiPoint) (i : ℕ),
      r ∈ recordsForAux chunk i pts ↔
        ∃ j pt temps, pts[j]? = some pt ∧ pt.hourly = some ⟨some temps⟩ ∧
          r = ⟨chunk[i + j]?, temps⟩ := by
  intro pts
  induction pts with
  | nil =>
    intro i
    simp [recordsForAux]
  | cons pt rest ih =>
    intro i
    obtain ⟨hourly⟩ := pt
    match hourly with
    | none =>
      rw [show recordsForAux chunk i (⟨none⟩ :: rest) = recordsForAux chunk (i + 1) rest
            from rfl,
          ih (i + 1)]
      constructor
      · rintro ⟨j, pt, temps, hj, hh, hr⟩
        refine ⟨j + 1, pt, temps, by simpa using hj, hh, ?_⟩
        have harith : i + (j + 1) = i + 1 + j := by omega
        rw [harith]
        exact hr
      · rintro ⟨j, pt, temps, hj, hh, hr⟩
        match j with
        | 0 =>
          simp only [List.getElem?_cons_zero, Option.some_inj] at hj
          rw [← hj] at hh
          simp at hh
        | j + 1 =>
          refine ⟨j, pt, temps, by simpa using hj, hh, ?_⟩
          have harith : i + 1 + j = i + (j + 1) := by omega
          rw [harith]
          exact hr
    | some ⟨none⟩ =>
      rw [show recordsForAux chunk i (⟨some ⟨none⟩⟩ :: rest) =
            recordsForAux chunk (i + 1) rest from rfl,
          ih (i + 1)]
      constructor
      · rintro ⟨j, pt, temps, hj, hh, hr⟩
        refine ⟨j + 1, pt, temps, by simpa using hj, hh, ?_⟩
        have harith : i + (j + 1) = i + 1 + j := by omega
        rw [harith]
        exact hr
      · rintro ⟨j, pt, temps, hj, hh, hr⟩
        match j with
        | 0 =>
          simp only [List.getElem?_cons_zero, Option.some_inj] at hj
          rw [← hj] at hh
          simp at hh
        | j + 1 =>
          refine ⟨j, pt, temps, by simpa using hj, hh, ?_⟩
          have harith : i + 1 + j = i + (j + 1) := by omega
          rw [harith]
          exact hr
    | some ⟨some temps0⟩ =>
      rw [show recordsForAux chunk i (⟨some ⟨some temps0⟩⟩ :: rest) =
            ⟨chunk[i]?, temps0⟩ :: recordsForAux chunk (i + 1) rest from rfl]
      rw [List.mem_cons, ih (i + 1)]
      constructor
      · rintro (hr | ⟨j, pt, temps, hj, hh, hr⟩)
        · exact ⟨0, ⟨some ⟨some temps0⟩⟩, temps0, by simp, rfl, by simpa using hr⟩
        · refine ⟨j + 1, pt, temps, by simpa using hj, hh, ?_⟩
          have harith : i + (j + 1) = i + 1 + j := by omega
          rw [harith]
          exact hr
      · rintro ⟨j, pt, temps, hj, hh, hr⟩
        match j with
        | 0 =>
          simp only [List.getElem?_cons_zero, Option.some_inj] at hj
          rw [← hj] at hh
          simp only [Option.some_inj] at hh
          obtain ⟨htemps⟩ := congrArg Hourly.temperature_2m hh
          left
          simpa [← hh] using hr
        | j + 1 =>
          refine Or.inr ⟨j, pt, temps, by simpa using hj, hh, ?_⟩
          have harith : i + 1 + j = i + (j + 1) := by omega
          rw [harith]
          exact hr

/-- C1 counterexample. An API response element whose
`hourly.temperature_2m` is the *empty* array is truthy in JavaScript, so a
`WeatherRecord` with an empty temperature series **is** appended for it,
contradicting "a WeatherRecord is appended only for elements whose
`hourly.temperature_2m` is a non-empty array". -/
theorem record_appended_for_empty_series :
    recordsFor [(24, -126)] [⟨some ⟨some []⟩⟩] =
      [⟨some (24, -126), []⟩] := by
  decide

/-- C1 (amended). For every chunk response parsed as a JSON array, a
`WeatherRecord` is appended exactly for those response elements whose
`hourly.temperature_2m` is *present* (an array — possibly empty, since an
empty array is truthy in JavaScript), and each appended record's `coords`
equals the input coordinate at the same array index within the chunk
(JavaScript `undefined` if that index is beyond the chunk). -/
theorem record_appended_iff (chunk : List Coord) (pts : List ApiPoint)
    (r : WeatherRecord) :
    r ∈ recordsFor chunk pts ↔
      ∃ (j : ℕ) (pt : ApiPoint) (temps : List ℚ),
        pts[j]? = some pt ∧ pt.hourly = some ⟨some temps⟩ ∧
        r = ⟨chunk[j]?, temps⟩ := by
  rw [show recordsFor chunk pts = recordsForAux chunk 0 pts from rfl,
      recordsForAux_mem]
  simp only [Nat.zero_add]

/-- Step equation: a chunk whose attempt throws is logged and appended to
the end of the work queue, with no further events. -/
theorem fetchLoop_err_step (oracle : List Coord → ℕ → Outcome) (fuel : ℕ)
    (chunk : List Coord) (rest : List (List Coord)) (k p total : ℕ)
    (acc : List WeatherRecord) (tr : List Ev)
    (h : oracle chunk k = .err) :
    fetchLoop oracle (fuel + 1) (chunk :: rest) k p total acc tr =
      fetchLoop oracle fuel (rest ++ [chunk]) (k + 1) p total acc
        (tr ++ [Ev.req chunk, Ev.requeue chunk]) := by
  simp [fetchLoop, h]

/-- Step equation: a successful chunk appends its records, reports
progress and waits 100 ms. -/
theorem fetchLoop_ok_step (oracle : List Coord → ℕ → Outcome) (fuel : ℕ)
    (chunk : List Coord) (rest : List (List Coord)) (k p total : ℕ)
    (acc : List WeatherRecord) (tr : List Ev) (d : Option (List ApiPoint))
    (h : oracle chunk k = .ok d) :
    fetchLoop oracle (fuel + 1) (chunk :: rest) k p total acc tr =
      fetchLoop oracle fuel rest (k + 1) (p + 1) total
        (acc ++ recordsOf chunk d)
        (tr ++ [Ev.req chunk, Ev.progress ((p + 1 : ℚ) / (total : ℚ) * 100),
                Ev.delay 100]) := by
  simp [fetchLoop, h]

/-- A chunk that throws on every attempt keeps the loop running: no amount
of fuel reaches the terminated state. -/
theorem fetchLoop_stuck (oracle : List Coord → ℕ → Outcome)
    (c : List Coord) (hc : ∀ k, oracle c k = .err) :
    ∀ (fuel : ℕ) (queue : List (List Coord)) (k p total : ℕ)
      (acc : List WeatherRecord) (tr : List Ev), c ∈ queue →
      (fetchLoop oracle fuel queue k p total acc tr).1 = none := by
  intro fuel
  induction fuel with
  | zero =>
    intro queue k p total acc tr hm
    match queue with
    | [] => exact absurd hm (List.not_mem_nil c)
    | _ :: _ => rfl
  | succ fuel ih =>
    intro queue k p total acc tr hm
    match queue with
    | [] => exact absurd hm (List.not_mem_nil c)
    | q :: rest =>
      cases hq : oracle q k with
      | ok d =>
        have hcq : c ≠ q := by
          intro he
          rw [← he] at hq
          rw [hc k] at hq
          exact Outcome.noConfusion hq
        have hcrest : c ∈ rest := by
          rcases List.mem_cons.1 hm with h' | h'
          · exact absurd h' hcq
          · exact h'
        rw [fetchLoop_ok_step oracle fuel q rest k p total acc tr d hq]
        exact ih _ _ _ _ _ _ hcrest
      | err =>
        have hcq : c ∈ rest ++ [q] := by
          rcases List.mem_cons.1 hm with h' | h'
          · exact List.mem_append_right _ (by simp [h'])
          · exact List.mem_append_left _ h'
        rw [fetchLoop_err_step oracle fuel q rest k p total acc tr hq]
        exact ih _ _ _ _ _ _ hcq

/-- C2. Any chunk whose processing throws is appended back to the end
of the work queue (after the error is logged) and retried without bound;
consequently, if some chunk's fetch throws on every attempt, `fetchData`
never terminates: for every fuel bound the loop is still running. -/
theorem fetch_requeue_unbounded (oracle : List Coord → ℕ → Outcome) :
    (∀ (fuel : ℕ) (chunk : List Coord) (rest : List (List Coord))
       (k p total : ℕ) (acc : List WeatherRecord) (tr : List Ev),
       oracle chunk k = .err →
       fetchLoop oracle (fuel + 1) (chunk :: rest) k p total acc tr =
         fetchLoop oracle fuel (rest ++ [chunk]) (k + 1) p total acc
           (tr ++ [Ev.req chunk, Ev.requeue chunk])) ∧
    (∀ chunk : List Coord, (∀ k, oracle chunk k = .err) →
       ∀ (fuel : ℕ) (queue : List (List Coord)) (k p total : ℕ)
         (acc : List WeatherRecord) (tr : List Ev), chunk ∈ queue →
         (fetchLoop oracle fuel queue k p total acc tr).1 = none) :=
  ⟨fun fuel chunk rest k p total acc tr h =>
     fetchLoop_err_step oracle fuel chunk rest k p total acc tr h,
   fun chunk hc fuel queue k p total acc tr hm =>
     fetchLoop_stuck oracle chunk hc fuel queue k p total acc tr hm⟩

/-- C2 witness. A concrete always-failing chunk: the failing chunk is
requeued, and no fuel (here 9) terminates the loop. -/
theorem fetch_requeue_unbounded_witness :
    (fetchLoop (fun _ _ => .err) 3 [[(24, -126)]] 0 0 1 [] [] =
      fetchLoop (fun _ _ => .err) 2 ([] ++ [[(24, -126)]]) 1 0 1 []
        ([] ++ [Ev.req [(24, -126)], Ev.requeue [(24, -126)]])) ∧
    (fetchLoop (fun _ _ => .err) 9 [[(24, -126)]] 0 0 1 [] []).1 = none :=
  ⟨(fetch_requeue_unbounded (fun _ _ => .err)).1 2 [(24, -126)] [] 0 0 1 [] [] rfl,
   (fetch_requeue_unbounded (fun _ _ => .err)).2 [(24, -126)] (fun _ => rfl) 9
     [[(24, -126)]] 0 0 1 [] [] (List.mem_singleton.2 rfl)⟩

/-- Every run's trace decomposes into per-iteration segments: a successful
iteration contributes `[req, progress, delay 100]`, a failed one
`[req, requeue]` — so the 100 ms delay happens exactly after successful
chunks. -/
theorem fetchLoop_trace_segments (oracle : List Coord → ℕ → Outcome)
    (total : ℕ) :
    ∀ (fuel : ℕ) (queue : List (List Coord)) (k p : ℕ)
      (acc : List WeatherRecord) (tr : List Ev)
      (o : Option (List WeatherRecord)) (tr' : List Ev),
      fetchLoop oracle fuel queue k p total acc tr = (o, tr') →
      ∃ segs : List (List Ev), tr' = tr ++ segs.flatten ∧
        ∀ s ∈ segs,
          (∃ c v, s = [Ev.req c, Ev.progress v, Ev.delay 100]) ∨
          (∃ c, s = [Ev.req c, Ev.requeue c]) := by
  intro fuel
  induction fuel with
  | zero =>
    intro queue k p acc tr o tr' h
    match queue with
    | [] =>
      obtain ⟨rfl, rfl⟩ := Prod.mk.injEq .. ▸ h
      exact ⟨[], by simp, by simp⟩
    | _ :: _ =>
      obtain ⟨rfl, rfl⟩ := Prod.mk.injEq .. ▸ h
      exact ⟨[], by simp, by simp⟩
  | succ fuel ih =>
    intro queue k p acc tr o tr' h
    match queue with
    | [] =>
      obtain ⟨rfl, rfl⟩ := Prod.mk.injEq .. ▸ h
      exact ⟨[], by simp, by simp⟩
    | q :: rest =>
      cases hq : oracle q k with
      | ok d =>
        rw [fetchLoop_ok_step oracle fuel q rest k p total acc tr d hq] at h
        obtain ⟨segs, hseg, hall⟩ := ih _ _ _ _ _ _ _ h
        refine ⟨[Ev.req q, Ev.progress ((p + 1 : ℚ) / (total : ℚ) * 100),
                 Ev.delay 100] :: segs, ?_, ?_⟩
        · simp [hseg]
        · intro s hs
          rcases List.mem_cons.1 hs with h' | h'
          · exact Or.inl ⟨q, _, h'⟩
          · exact hall s h'
      | err =>
        rw [fetchLoop_err_step oracle fuel q rest k p total acc tr hq] at h
        obtain ⟨segs, hseg, hall⟩ := ih _ _ _ _ _ _ _ h
        refine ⟨[Ev.req q, Ev.requeue q] :: segs, ?_, ?_⟩
        · simp [hseg]
        · intro s hs
          rcases List.mem_cons.1 hs with h' | h'
          · exact Or.inr ⟨q, h'⟩
          · exact hall s h'

/-- C4 counterexample. With a chunk that fails its first attempt and
succeeds the second, the trace (by event kind) is
`[request, requeue, request, progress, delay]`: no delay event separates
the failed processing from the next request — the 100 ms delay is *not*
inserted after a chunk whose processing threw, contradicting "regardless
of whether that chunk's processing succeeded or threw". -/
theorem no_delay_after_failed_chunk :
    ((fetchLoop (fun _ k => if k = 0 then .err else .ok none) 2
        [[(24, -126)]] 0 0 1 [] []).2).map Ev.kind =
      [.reqK, .requeueK, .reqK, .progressK, .delayK] := by
  decide

/-- C4 (amended). A fixed 100 ms delay is inserted after a chunk's
progress update exactly when its processing succeeded; a chunk whose
processing threw is requeued and the next chunk starts with no intervening
delay (each iteration contributes either `[req, progress, delay 100]` or
`[req, requeue]` to the trace). -/
theorem delay_only_after_success (oracle : List Coord → ℕ → Outcome)
    (fuel : ℕ) (coords : List Coord) (o : Option (List WeatherRecord))
    (tr : List Ev) (h : fetchData oracle fuel coords = (o, tr)) :
    ∃ segs : List (List Ev), tr = segs.flatten ∧
      ∀ s ∈ segs,
        (∃ c v, s = [Ev.req c, Ev.progress v, Ev.delay 100]) ∨
        (∃ c, s = [Ev.req c, Ev.requeue c]) := by
  obtain ⟨segs, hseg, hall⟩ :=
    fetchLoop_trace_segments oracle (chunksOf100 coords).length fuel
      (chunksOf100 coords) 0 0 [] [] o tr h
  exact ⟨segs, by simpa using hseg, hall⟩

/-- C4 witness. The segment decomposition of the concrete
fail-then-succeed run. -/
theorem delay_only_after_success_witness :
    ∃ segs : List (List Ev),
      (fetchData (fun _ k => if k = 0 then .err else .ok none) 2
        [(24, -126)]).2 = segs.flatten ∧
      ∀ s ∈ segs,
        (∃ c v, s = [Ev.req c, Ev.progress v, Ev.delay 100]) ∨
        (∃ c, s = [Ev.req c, Ev.requeue c]) :=
  delay_only_after_success (fun _ k => if k = 0 then .err else .ok none) 2
    [(24, -126)]
    ((fetchData (fun _ k => if k = 0 then .err else .ok none) 2 [(24, -126)]).1)
    ((fetchData (fun _ k => if k = 0 then .err else .ok none) 2 [(24, -126)]).2)
    rfl

/-- The chunking loop produces `⌈N/100⌉` chunks. -/
theorem chunksOf100_length (l : List Coord) :
    (chunksOf100 l).length = (l.length + 99) / 100 := by
  induction l using chunksOf100.induct with
  | case1 => simp [chunksOf100]
  | case2 x xs ih =>
    rw [show chunksOf100 (x :: xs) =
          (x :: xs).take 100 :: chunksOf100 ((x :: xs).drop 100) from by
        rw [chunksOf100]]
    simp only [List.length_cons, List.length_drop] at ih ⊢
    omega

/-- Every chunk has at most `maxPointsPerRequest = 100` coordinates. -/
theorem chunksOf100_le (l : List Coord) :
    ∀ c ∈ chunksOf100 l, c.length ≤ 100 := by
  induction l using chunksOf100.induct with
  | case1 => simp [chunksOf100]
  | case2 x xs ih =>
    rw [show chunksOf100 (x :: xs) =
          (x :: xs).take 100 :: chunksOf100 ((x :: xs).drop 100) from by
        rw [chunksOf100]]
    intro c hc
    rcases List.mem_cons.1 hc with h' | h'
    · simp [h']
    · exact ih c h'

/-- When no attempt throws, the loop finishes in exactly one iteration per
queued chunk, issuing exactly one request per chunk. -/
theorem fetchLoop_all_ok (oracle : List Coord → ℕ → Outcome)
    (h : ∀ c k, oracle c k ≠ .err) (total : ℕ) :
    ∀ (queue : List (List Coord)) (k p : ℕ) (acc : List WeatherRecord)
      (tr : List Ev),
      ∃ res tr',
        fetchLoop oracle queue.length queue k p total acc tr =
          (some res, tr') ∧
        reqCount tr' = reqCount tr + queue.length := by
  intro queue
  induction queue with
  | nil =>
    intro k p acc tr
    exact ⟨acc, tr, rfl, by simp⟩
  | cons q rest ih =>
    intro k p acc tr
    cases hq : oracle q k with
    | err => exact absurd hq (h q k)
    | ok d =>
      rw [show (q :: rest).length = rest.length + 1 from rfl,
          fetchLoop_ok_step oracle rest.length q rest k p total acc tr d hq]
      obtain ⟨res, tr', hrun, hcount⟩ :=
        ih (k + 1) (p + 1) (acc ++ recordsOf q d)
          (tr ++ [Ev.req q, Ev.progress ((p + 1 : ℚ) / (total : ℚ) * 100),
                  Ev.delay 100])
      refine ⟨res, tr', hrun, ?_⟩
      rw [hcount]
      simp only [reqCount, List.countP_append]
      simp [List.countP_cons, Ev.isReq]
      omega

/-- C8. For every input list of `N` coordinates, `fetchData` partitions
it into exactly `⌈N/100⌉` chunks, each of size at most 100, and absent
retries (no attempt throws) issues exactly one HTTP request per chunk,
i.e. exactly `⌈N/100⌉` requests. -/
theorem chunk_partition_and_requests (coords : List Coord)
    (oracle : List Coord → ℕ → Outcome) (h : ∀ c k, oracle c k ≠ .err) :
    (chunksOf100 coords).length = (coords.length + 99) / 100 ∧
    (∀ c ∈ chunksOf100 coords, c.length ≤ 100) ∧
    ∃ res tr,
      fetchData oracle (chunksOf100 coords).length coords = (some res, tr) ∧
      reqCount tr = (chunksOf100 coords).length := by
  refine ⟨chunksOf100_length coords, chunksOf100_le coords, ?_⟩
  obtain ⟨res, tr, hrun, hcount⟩ :=
    fetchLoop_all_ok oracle h (chunksOf100 coords).length
      (chunksOf100 coords) 0 0 [] []
  exact ⟨res, tr, hrun, by simpa [reqCount] using hcount⟩

/-- C8 witness. A two-coordinate input with an always-successful
oracle: one chunk, one request. -/
theorem chunk_partition_and_requests_witness :
    ((chunksOf100 [((24 : ℚ), (-126 : ℚ)), (25, -125)]).length =
      (([((24 : ℚ), (-126 : ℚ)), (25, -125)] : List Coord).length + 99) / 100) ∧
    (∀ c ∈ chunksOf100 [((24 : ℚ), (-126 : ℚ)), (25, -125)], c.length ≤ 100) ∧
    ∃ res tr,
      fetchData (fun _ _ => .ok none)
        (chunksOf100 [((24 : ℚ), (-126 : ℚ)), (25, -125)]).length
        [(24, -126), (25, -125)] = (some res, tr) ∧
      reqCount tr = (chunksOf100 [((24 : ℚ), (-126 : ℚ)), (25, -125)]).length :=
  chunk_partition_and_requests [(24, -126), (25, -125)] (fun _ _ => .ok none)
    (fun _ _ h => Outcome.noConfusion h)

/-- The progress values any (partial or complete) run appends to the trace
are `100·(p+1)/total, …, 100·(p+m)/total` for the number `m` of successful
iterations; `m` never exceeds the queue length (failures keep the queue
length constant, successes shrink it by one), and a completed run has
`m = queue.length` exactly. -/
theorem fetchLoop_progress_run (oracle : List Coord → ℕ → Outcome)
    (total : ℕ) :
    ∀ (fuel : ℕ) (queue : List (List Coord)) (k p : ℕ)
      (acc : List WeatherRecord) (tr : List Ev)
      (o : Option (List WeatherRecord)) (tr' : List Ev),
      fetchLoop oracle fuel queue k p total acc tr = (o, tr') →
      ∃ m, m ≤ queue.length ∧
        progressOf tr' = progressOf tr ++
          (List.range' (p + 1) m).map
            (fun j : ℕ => (j : ℚ) / (total : ℚ) * 100) ∧
        (∀ res, o = some res → m = queue.length) := by
  intro fuel
  induction fuel with
  | zero =>
    intro queue k p acc tr o tr' h
    match queue with
    | [] =>
      obtain ⟨rfl, rfl⟩ := Prod.mk.injEq .. ▸ h
      exact ⟨0, by simp, by simp, fun _ _ => rfl⟩
    | _ :: _ =>
      obtain ⟨rfl, rfl⟩ := Prod.mk.injEq .. ▸ h
      exact ⟨0, by simp, by simp, fun _ h' => Option.noConfusion h'⟩
  | succ fuel ih =>
    intro queue k p acc tr o tr' h
    match queue with
    | [] =>
      obtain ⟨rfl, rfl⟩ := Prod.mk.injEq .. ▸ h
      exact ⟨0, by simp, by simp, fun _ _ => rfl⟩
    | q :: rest =>
      cases hq : oracle q k with
      | ok d =>
        rw [fetchLoop_ok_step oracle fuel q rest k p total acc tr d hq] at h
        obtain ⟨m, hm, hpr, hterm⟩ := ih _ _ _ _ _ _ _ h
        refine ⟨m + 1, by simpa using Nat.add_le_add_right hm 1, ?_, ?_⟩
        · rw [hpr]
          simp only [progressOf, List.filterMap_append]
          rw [List.range'_succ, List.map_cons]
          simp [Ev.progressValue, Nat.cast_add, Nat.cast_one]
        · intro res hres
          simp [hterm res hres]
      | err =>
        rw [fetchLoop_err_step oracle fuel q rest k p total acc tr hq] at h
        obtain ⟨m, hm, hpr, hterm⟩ := ih _ _ _ _ _ _ _ h
        refine ⟨m, ?_, ?_, ?_⟩
        · simp only [List.length_append, List.length_cons,
            List.length_nil] at hm ⊢
          omega
        · rw [hpr]
          simp [progressOf, Ev.progressValue]
        · intro res hres
          have := hterm res hres
          simp only [List.length_append, List.length_cons,
            List.length_nil] at this ⊢
          omega

/-- Strict monotonicity of the reported percentage along the run. -/
theorem progress_chain (t : ℕ) (ht : 0 < t) :
    ∀ (m s : ℕ),
      List.Chain' (· < ·)
        ((List.range' s m).map (fun j : ℕ => (j : ℚ) / (t : ℚ) * 100)) := by
  intro m
  induction m with
  | zero => intro s; simp
  | succ m ih =>
    intro s
    rw [List.range'_succ, List.map_cons]
    refine List.chain'_cons'.2 ⟨?_, ih (s + 1)⟩
    intro b hb
    match m with
    | 0 => simp at hb
    | m + 1 =>
      rw [List.range'_succ, List.map_cons] at hb
      simp only [List.head?_cons, Option.mem_def, Option.some_inj] at hb
      rw [← hb]
      have hcast : (s : ℚ) < ((s + 1 : ℕ) : ℚ) := by push_cast; linarith
      have htq : (0 : ℚ) < (t : ℚ) := by exact_mod_cast ht
      have h100 : (0 : ℚ) < 100 := by norm_num
      exact mul_lt_mul_of_pos_right ((div_lt_div_iff_of_pos_right htq).2 hcast) h100

/-- Every reported percentage is at most 100. -/
theorem progress_le (t m : ℕ) (hm : m ≤ t) :
    ∀ v ∈ (List.range' 1 m).map (fun j : ℕ => (j : ℚ) / (t : ℚ) * 100),
      v ≤ 100 := by
  intro v hv
  obtain ⟨j, hj, rfl⟩ := List.mem_map.1 hv
  obtain ⟨i, hi, rfl⟩ := List.mem_range'.1 hj
  have hjt : 1 + 1 * i ≤ t := by omega
  have htpos : 0 < t := by omega
  have htq : (0 : ℚ) < (t : ℚ) := by exact_mod_cast htpos
  have hle : ((1 + 1 * i : ℕ) : ℚ) ≤ (t : ℚ) := by exact_mod_cast hjt
  have hdiv : ((1 + 1 * i : ℕ) : ℚ) / (t : ℚ) ≤ 1 := (div_le_one htq).2 hle
  calc ((1 + 1 * i : ℕ) : ℚ) / (t : ℚ) * 100
      ≤ 1 * 100 := mul_le_mul_of_nonneg_right hdiv (by norm_num)
    _ = 100 := by norm_num

/-- A complete run's final reported percentage is exactly 100. -/
theorem progress_last (t : ℕ) (ht : 0 < t) :
    ((List.range' 1 t).map
      (fun j : ℕ => (j : ℚ) / (t : ℚ) * 100)).getLast? = some 100 := by
  match t, ht with
  | t' + 1, _ =>
    rw [List.getLast?_map, List.range'_concat, List.getLast?_concat]
    have htq : ((t' + 1 : ℕ) : ℚ) ≠ 0 := by
      exact_mod_cast Nat.succ_ne_zero t'
    simp only [Option.map_some']
    congr 1
    rw [show 1 + 1 * t' = t' + 1 from by omega, div_self htq]
    norm_num

/-- C10. The progress values `fetchData` passes to its callback form
the strictly increasing sequence `100·k/totalChunks`, `k = 1, 2, …`, where
`totalChunks` is the initial chunk count; no reported value exceeds 100,
failed attempts report no progress (the reported values are exactly one
per *successful* iteration), and whenever `fetchData` terminates the final
reported value is exactly 100 — even when chunks were retried. -/
theorem progress_report (oracle : List Coord → ℕ → Outcome) (fuel : ℕ)
    (coords : List Coord) (o : Option (List WeatherRecord)) (tr : List Ev)
    (h : fetchData oracle fuel coords = (o, tr)) :
    ∃ m, m ≤ (chunksOf100 coords).length ∧
      progressOf tr = (List.range' 1 m).map
        (fun j : ℕ => (j : ℚ) / ((chunksOf100 coords).length : ℚ) * 100) ∧
      List.Chain' (· < ·) (progressOf tr) ∧
      (∀ v ∈ progressOf tr, v ≤ 100) ∧
      (∀ res, o = some res →
        m = (chunksOf100 coords).length ∧
        (0 < (chunksOf100 coords).length →
          (progressOf tr).getLast? = some 100)) := by
  obtain ⟨m, hm, hpr, hterm⟩ :=
    fetchLoop_progress_run oracle (chunksOf100 coords).length fuel
      (chunksOf100 coords) 0 0 [] [] o tr h
  rw [show progressOf [] = [] from rfl, List.nil_append] at hpr
  refine ⟨m, hm, hpr, ?_, ?_, ?_⟩
  · rcases Nat.eq_zero_or_pos m with hm0 | hmpos
    · subst hm0
      simp [hpr]
    · have htpos : 0 < (chunksOf100 coords).length :=
        lt_of_lt_of_le hmpos hm
      rw [hpr]
      exact progress_chain _ htpos m 1
  · rw [hpr]
    exact progress_le _ m hm
  · intro res hres
    have hmt : m = (chunksOf100 coords).length := hterm res hres
    refine ⟨hmt, ?_⟩
    intro htpos
    rw [hpr, hmt]
    exact progress_last _ htpos

/-- C10 witness. A concrete single-chunk always-successful run. -/
theorem progress_report_witness :
    ∃ m, m ≤ (chunksOf100 [((24 : ℚ), (-126 : ℚ))]).length ∧
      progressOf (fetchData (fun _ _ => .ok none) 1 [(24, -126)]).2 =
        (List.range' 1 m).map
          (fun j : ℕ => (j : ℚ) /
            ((chunksOf100 [((24 : ℚ), (-126 : ℚ))]).length : ℚ) * 100) ∧
      List.Chain' (· < ·)
        (progressOf (fetchData (fun _ _ => .ok none) 1 [(24, -126)]).2) ∧
      (∀ v ∈ progressOf (fetchData (fun _ _ => .ok none) 1 [(24, -126)]).2,
        v ≤ 100) ∧
      (∀ res, (fetchData (fun _ _ => .ok none) 1 [(24, -126)]).1 = some res →
        m = (chunksOf100 [((24 : ℚ), (-126 : ℚ))]).length ∧
        (0 < (chunksOf100 [((24 : ℚ), (-126 : ℚ))]).length →
          (progressOf
            (fetchData (fun _ _ => .ok none) 1 [(24, -126)]).2).getLast? =
            some 100)) :=
  progress_report (fun _ _ => .ok none) 1 [(24, -126)]
    ((fetchData (fun _ _ => .ok none) 1 [(24, -126)]).1)
    ((fetchData (fun _ _ => .ok none) 1 [(24, -126)]).2) rfl

/-- The accumulation loop `for (v = start; v ≤ stop; v += step)` visits
exactly the arithmetic progression `start, start + step, …` while it stays
at most `stop`, provided the fuel exceeds the iteration count. -/
theorem seqFrom_eq_map (stop step : ℚ) (hstep : 0 < step) :
    ∀ (n : ℕ) (start : ℚ), (stop - start) / step < n →
      seqFrom stop step start n =
        (List.range (⌊(stop - start) / step⌋ + 1).toNat).map
          (fun i : ℕ => start + (i : ℚ) * step) := by
  intro n
  induction n with
  | zero =>
    intro start h
    have hneg : ⌊(stop - start) / step⌋ < 0 := Int.floor_lt.2 (by exact_mod_cast h)
    have : (⌊(stop - start) / step⌋ + 1).toNat = 0 := by omega
    rw [seqFrom, this]
    simp
  | succ n ih =>
    intro start h
    by_cases hss : start ≤ stop
    · have hx0 : (0 : ℚ) ≤ (stop - start) / step :=
        div_nonneg (by linarith) (le_of_lt hstep)
      have hK0 : 0 ≤ ⌊(stop - start) / step⌋ := Int.floor_nonneg.2 hx0
      have hstep' : step ≠ 0 := ne_of_gt hstep
      have hshift : (stop - (start + step)) / step = (stop - start) / step - 1 := by
        field_simp
        ring
      have hbound : (stop - (start + step)) / step < n := by
        rw [hshift]
        have : ((n : ℚ) + 1) = ((n + 1 : ℕ) : ℚ) := by push_cast; ring
        have h' : (stop - start) / step < (n : ℚ) + 1 := by
          rw [this]; exact_mod_cast h
        linarith
      have hfloor : ⌊(stop - (start + step)) / step⌋ =
          ⌊(stop - start) / step⌋ - 1 := by
        rw [hshift, Int.floor_sub_one]
      rw [seqFrom, if_pos hss, ih (start + step) hbound, hfloor]
      have htn : (⌊(stop - start) / step⌋ + 1).toNat =
          (⌊(stop - start) / step⌋ - 1 + 1).toNat + 1 := by omega
      rw [htn, List.range_succ_eq_map, List.map_cons, List.map_map]
      refine congrArg₂ _ (by norm_num) ?_
      refine List.map_congr_left ?_
      intro i _
      simp only [Function.comp_apply, Nat.succ_eq_add_one]
      push_cast
      ring
    · have hxneg : (stop - start) / step < 0 :=
        div_neg_of_neg_of_pos (by linarith) hstep
      have hneg : ⌊(stop - start) / step⌋ < 0 := Int.floor_lt.2 (by exact_mod_cast hxneg)
      have htn : (⌊(stop - start) / step⌋ + 1).toNat = 0 := by omega
      rw [seqFrom, if_neg hss, htn]
      simp

/-- The 105 latitude values `24.0, 24.25, …, 50.0`. -/
theorem latValues_eq :
    latValues = (List.range 105).map
      (fun i : ℕ => (24 : ℚ) + (i : ℚ) * (1/4)) := by
  rw [show latValues = seqFrom 50 (1/4) 24 200 from rfl,
      seqFrom_eq_map 50 (1/4) (by norm_num) 200 24 (by norm_num)]
  norm_num
  rfl

/-- The 241 longitude values `-126.0, -125.75, …, -66.0`. -/
theorem lonValues_eq :
    lonValues = (List.range 241).map
      (fun i : ℕ => (-126 : ℚ) + (i : ℚ) * (1/4)) := by
  rw [show lonValues = seqFrom (-66) (1/4) (-126) 300 from rfl,
      seqFrom_eq_map (-66) (1/4) (by norm_num) 300 (-126) (by norm_num)]
  norm_num
  rfl

/-- Rounding an integer plus one half floors back to the integer. -/
theorem floor_intCast_add_half (z : ℤ) : ⌊(z : ℚ) + 1/2⌋ = z := by
  rw [Int.floor_eq_iff]
  constructor
  · linarith
  · linarith

/-- The key of a grid value `a + i/4` (with `a` an integer) is the exact
scaled integer. -/
theorem toKey_affine (a : ℤ) (i : ℕ) :
    toKey ((a : ℚ) + (i : ℚ) * (1/4)) = 10000 * a + 2500 * i := by
  simp only [toKey]
  rw [show ((a : ℚ) + (i : ℚ) * (1/4)) * 10000 + 1/2 =
        ((10000 * a + 2500 * i : ℤ) : ℚ) + 1/2 from by push_cast; ring]
  exact floor_intCast_add_half _

/-- The latitude keys, as exact integers. -/
theorem latKeys_eq :
    latValues.map toKey =
      (List.range 105).map (fun i : ℕ => 240000 + 2500 * (i : ℤ)) := by
  rw [latValues_eq, List.map_map]
  refine List.map_congr_left ?_
  intro i _
  have h := toKey_affine 24 i
  simpa using h

/-- The longitude keys, as exact integers. -/
theorem lonKeys_eq :
    lonValues.map toKey =
      (List.range 241).map (fun i : ℕ => -1260000 + 2500 * (i : ℤ)) := by
  rw [lonValues_eq, List.map_map]
  refine List.map_congr_left ?_
  intro i _
  have h := toKey_affine (-126) i
  simpa using h

/-- The rounded coordinate has the same `toFixed(4)` key as the raw one
(the key of `Math.round(q·10⁴)/10⁴` is `Math.round(q·10⁴)` itself). -/
theorem toKey_jsRound4 (q : ℚ) : toKey (jsRound4 q) = toKey q := by
  simp only [toKey]
  rw [show jsRound4 q * 10000 + 1/2 =
        ((⌊q * 10000 + 1/2⌋ : ℚ)) + 1/2 from by
      simp only [jsRound4]
      rw [div_mul_cancel₀]
      norm_num]
  exact floor_intCast_add_half _

/-- Rounding is monotone. -/
theorem jsRound4_mono {a b : ℚ} (h : a ≤ b) : jsRound4 a ≤ jsRound4 b := by
  simp only [jsRound4]
  have hfloor : ⌊a * 10000 + 1/2⌋ ≤ ⌊b * 10000 + 1/2⌋ :=
    Int.floor_le_floor (by linarith)
  have : ((⌊a * 10000 + 1/2⌋ : ℤ) : ℚ) ≤ ((⌊b * 10000 + 1/2⌋ : ℤ) : ℚ) := by
    exact_mod_cast hfloor
  linarith

/-- When the keys of the row are fresh (not in `seen`) and pairwise
distinct, the `seen`-filter never fires: the row is the plain image of the
longitude list, and `seen` grows by exactly the row's keys. -/
theorem buildRow_eq (lat : ℚ) :
    ∀ (lons : List ℚ) (seen : List (ℤ × ℤ)),
      (∀ lon ∈ lons, (toKey lat, toKey lon) ∉ seen) →
      (lons.map toKey).Nodup →
      buildRow lat lons seen =
        (lons.map (fun lon => (jsRound4 lat, jsRound4 lon)),
         (lons.map (fun lon => (toKey lat, toKey lon))).reverse ++ seen) := by
  intro lons
  induction lons with
  | nil =>
    intro seen _ _
    simp [buildRow]
  | cons lon rest ih =>
    intro seen hfresh hnodup
    have hkey : (toKey lat, toKey lon) ∉ seen := hfresh lon (List.mem_cons_self lon rest)
    have hnodup' : (rest.map toKey).Nodup := by
      simpa using hnodup.of_cons
    have hhead : toKey lon ∉ rest.map toKey := by
      have := hnodup
      rw [List.map_cons, List.nodup_cons] at this
      exact this.1
    have hfresh' : ∀ lon' ∈ rest, (toKey lat, toKey lon') ∉
        ((toKey lat, toKey lon) :: seen) := by
      intro lon' hlon'
      intro hmem
      rcases List.mem_cons.1 hmem with heq | hmem'
      · have : toKey lon' = toKey lon := congrArg Prod.snd heq
        exact hhead (this ▸ List.mem_map_of_mem toKey hlon')
      · exact hfresh lon' (List.mem_cons_of_mem lon hlon') hmem'
    rw [buildRow, if_neg hkey]
    rw [ih ((toKey lat, toKey lon) :: seen) hfresh' hnodup']
    simp [List.reverse_cons, List.append_assoc]

/-- When latitude keys and longitude keys are each pairwise distinct and
the keys in `seen` have first components different from every remaining
latitude key, the outer loop concatenates the (already sorted) rows in
order, and `seen` ends up containing every primary key. -/
theorem buildGrid_eq :
    ∀ (lats : List ℚ) (lons : List ℚ) (seen : List (ℤ × ℤ))
      (grid : List Coord),
      (lons.map toKey).Nodup →
      (lats.map toKey).Nodup →
      (∀ lat ∈ lats, ∀ k ∈ seen, k.1 ≠ toKey lat) →
      List.Pairwise (fun a b : ℚ => a ≤ b) lons →
      ∃ seenOut,
        buildGrid lats lons seen grid =
          (grid ++ (lats.map (fun lat =>
            lons.map (fun lon => (jsRound4 lat, jsRound4 lon)))).flatten,
           seenOut) ∧
        ∀ k, (k ∈ seen ∨
              ∃ lat ∈ lats, ∃ lon ∈ lons, k = (toKey lat, toKey lon)) →
          k ∈ seenOut := by
  intro lats
  induction lats with
  | nil =>
    intro lons seen grid _ _ _ _
    refine ⟨seen, by simp [buildGrid], ?_⟩
    intro k hk
    rcases hk with hk | ⟨lat, hlat, _⟩
    · exact hk
    · exact absurd hlat (List.not_mem_nil lat)
  | cons lat rest ih =>
    intro lons seen grid hlonsK hlatsK hseen hlonsSorted
    have hfresh : ∀ lon ∈ lons, (toKey lat, toKey lon) ∉ seen := by
      intro lon _ hmem
      exact hseen lat (List.mem_cons_self lat rest) _ hmem rfl
    have hrow := buildRow_eq lat lons seen hfresh hlonsK
    have hlatHead : toKey lat ∉ rest.map toKey := by
      have := hlatsK
      rw [List.map_cons, List.nodup_cons] at this
      exact this.1
    have hlatsK' : (rest.map toKey).Nodup := by
      have := hlatsK
      rw [List.map_cons, List.nodup_cons] at this
      exact this.2
    have hsorted : List.Pairwise (fun a b : Coord => lonLe a b = true)
        (lons.map (fun lon => (jsRound4 lat, jsRound4 lon))) := by
      refine List.Pairwise.map _ ?_ hlonsSorted
      intro a b hab
      simp only [lonLe]
      exact decide_eq_true (jsRound4_mono hab)
    have hsort :
        (lons.map (fun lon => (jsRound4 lat, jsRound4 lon))).mergeSort lonLe =
          lons.map (fun lon => (jsRound4 lat, jsRound4 lon)) :=
      List.mergeSort_of_sorted hsorted
    have hseen' : ∀ lat' ∈ rest, ∀ k ∈
        (lons.map (fun lon => (toKey lat, toKey lon))).reverse ++ seen,
        k.1 ≠ toKey lat' := by
      intro lat' hlat' k hk
      rcases List.mem_append.1 hk with hk' | hk'
      · obtain ⟨lon, _, rfl⟩ := List.mem_map.1 (List.mem_reverse.1 hk')
        intro heq
        have heq' : toKey lat = toKey lat' := heq
        exact hlatHead (heq' ▸ List.mem_map_of_mem toKey hlat')
      · exact hseen lat' (List.mem_cons_of_mem lat hlat') k hk'
    obtain ⟨seenOut, hgrid, hmem⟩ :=
      ih lons ((lons.map (fun lon => (toKey lat, toKey lon))).reverse ++ seen)
        (grid ++ lons.map (fun lon => (jsRound4 lat, jsRound4 lon)))
        hlonsK hlatsK' hseen' hlonsSorted
    refine ⟨seenOut, ?_, ?_⟩
    · rw [buildGrid, hrow]
      simp only [hsort]
      rw [hgrid]
      simp [List.append_assoc]
    · intro k hk
      rcases hk with hk | ⟨lat', hlat', lon, hlon, rfl⟩
      · exact hmem k (Or.inl (List.mem_append_right _ hk))
      · rcases List.mem_cons.1 hlat' with rfl | hlat''
        · refine hmem _ (Or.inl (List.mem_append_left _ ?_))
          exact List.mem_reverse.2
            (List.mem_map_of_mem (fun lon => (toKey lat', toKey lon)) hlon)
        · exact hmem _ (Or.inr ⟨lat', hlat'', lon, hlon, rfl⟩)

/-- Adding extra points whose keys are all already seen leaves the grid
unchanged. -/
theorem addExtras_skip :
    ∀ (extras : List Coord) (grid : List Coord) (seen : List (ℤ × ℤ)),
      (∀ p ∈ extras, pointKey p ∈ seen) →
      addExtras grid extras seen = grid := by
  intro extras
  induction extras with
  | nil => intro grid seen _; rfl
  | cons p rest ih =>
    intro grid seen h
    rw [addExtras, if_pos (h p (List.mem_cons_self p rest))]
    exact ih grid seen fun q hq => h q (List.mem_cons_of_mem p hq)

/-- Counting a key in one primary row. -/
theorem count_pair_row (a1 a2 A : ℤ) (lons : List ℚ) :
    (lons.map (fun lon => (A, toKey lon))).count (a1, a2) =
      if A = a1 then (lons.map toKey).count a2 else 0 := by
  induction lons with
  | nil => simp
  | cons lon rest ih =>
    rw [List.map_cons, List.count_cons, ih, List.map_cons]
    by_cases h1 : A = a1
    · subst h1
      by_cases h2 : toKey lon = a2
      · subst h2
        simp [List.count_cons]
      · simp [List.count_cons, h2, Ne.symm h2]
    · simp [List.count_cons, h1, (Ne.symm h1 : ¬(a1 = A))]

/-- Counting a key in the whole primary lattice: it factors through the
latitude-key count and the longitude-key count. -/
theorem count_pair_grid (a1 a2 : ℤ) (lats lons : List ℚ) :
    ((lats.map (fun lat =>
        lons.map (fun lon => (toKey lat, toKey lon)))).flatten).count (a1, a2) =
      (lats.map toKey).count a1 * (lons.map toKey).count a2 := by
  induction lats with
  | nil => simp
  | cons lat rest ih =>
    rw [List.map_cons, List.flatten_cons, List.count_append, ih,
      count_pair_row, List.map_cons, List.count_cons]
    by_cases h : toKey lat = a1
    · subst h
      simp only [if_pos rfl, beq_self_eq_true, if_pos]
      ring
    · simp only [if_neg h, beq_iff_eq, if_neg (Ne.symm h : ¬(a1 = toKey lat))]
      ring

/-- The 105 latitude keys are pairwise distinct. -/
theorem latKeys_nodup : (latValues.map toKey).Nodup := by
  rw [latKeys_eq]
  refine List.Nodup.map ?_ (List.nodup_range 105)
  intro i j h
  dsimp only at h
  omega

/-- The 241 longitude keys are pairwise distinct. -/
theorem lonKeys_nodup : (lonValues.map toKey).Nodup := by
  rw [lonKeys_eq]
  refine List.Nodup.map ?_ (List.nodup_range 241)
  intro i j h
  dsimp only at h
  omega

/-- The longitude loop visits its values in ascending order. -/
theorem lonValues_sorted :
    List.Pairwise (fun a b : ℚ => a ≤ b) lonValues := by
  rw [lonValues_eq]
  refine List.Pairwise.map _ ?_ (List.pairwise_lt_range 241)
  intro i j hij
  have hle : (i : ℚ) ≤ (j : ℚ) := by exact_mod_cast le_of_lt hij
  linarith

/-- Every extra point's latitude is a primary-loop latitude and its
longitude a primary-loop longitude (all 14 lie on the 0.25° lattice inside
the bounding box). -/
theorem extra_in_lattice :
    ∀ p ∈ extraPoints, p.1 ∈ latValues ∧ p.2 ∈ lonValues := by
  intro p hp
  rw [latValues_eq, lonValues_eq]
  simp only [extraPoints, List.mem_cons, List.not_mem_nil, or_false] at hp
  rcases hp with rfl | rfl | rfl | rfl | rfl | rfl | rfl | rfl | rfl | rfl |
    rfl | rfl | rfl | rfl
  · exact ⟨List.mem_map.2 ⟨86, List.mem_range.2 (by norm_num), by norm_num⟩,
      List.mem_map.2 ⟨156, List.mem_range.2 (by norm_num), by norm_num⟩⟩
  · exact ⟨List.mem_map.2 ⟨90, List.mem_range.2 (by norm_num), by norm_num⟩,
      List.mem_map.2 ⟨166, List.mem_range.2 (by norm_num), by norm_num⟩⟩
  · exact ⟨List.mem_map.2 ⟨78, List.mem_range.2 (by norm_num), by norm_num⟩,
      List.mem_map.2 ⟨174, List.mem_range.2 (by norm_num), by norm_num⟩⟩
  · exact ⟨List.mem_map.2 ⟨74, List.mem_range.2 (by norm_num), by norm_num⟩,
      List.mem_map.2 ⟨178, List.mem_range.2 (by norm_num), by norm_num⟩⟩
  · exact ⟨List.mem_map.2 ⟨80, List.mem_range.2 (by norm_num), by norm_num⟩,
      List.mem_map.2 ⟨198, List.mem_range.2 (by norm_num), by norm_num⟩⟩
  · exact ⟨List.mem_map.2 ⟨100, List.mem_range.2 (by norm_num), by norm_num⟩,
      List.mem_map.2 ⟨12, List.mem_range.2 (by norm_num), by norm_num⟩⟩
  · exact ⟨List.mem_map.2 ⟨98, List.mem_range.2 (by norm_num), by norm_num⟩,
      List.mem_map.2 ⟨24, List.mem_range.2 (by norm_num), by norm_num⟩⟩
  · exact ⟨List.mem_map.2 ⟨94, List.mem_range.2 (by norm_num), by norm_num⟩,
      List.mem_map.2 ⟨124, List.mem_range.2 (by norm_num), by norm_num⟩⟩
  · exact ⟨List.mem_map.2 ⟨84, List.mem_range.2 (by norm_num), by norm_num⟩,
      List.mem_map.2 ⟨172, List.mem_range.2 (by norm_num), by norm_num⟩⟩
  · exact ⟨List.mem_map.2 ⟨82, List.mem_range.2 (by norm_num), by norm_num⟩,
      List.mem_map.2 ⟨204, List.mem_range.2 (by norm_num), by norm_num⟩⟩
  · exact ⟨List.mem_map.2 ⟨98, List.mem_range.2 (by norm_num), by norm_num⟩,
      List.mem_map.2 ⟨6, List.mem_range.2 (by norm_num), by norm_num⟩⟩
  · exact ⟨List.mem_map.2 ⟨66, List.mem_range.2 (by norm_num), by norm_num⟩,
      List.mem_map.2 ⟨8, List.mem_range.2 (by norm_num), by norm_num⟩⟩
  · exact ⟨List.mem_map.2 ⟨4, List.mem_range.2 (by norm_num), by norm_num⟩,
      List.mem_map.2 ⟨180, List.mem_range.2 (by norm_num), by norm_num⟩⟩
  · exact ⟨List.mem_map.2 ⟨80, List.mem_range.2 (by norm_num), by norm_num⟩,
      List.mem_map.2 ⟨236, List.mem_range.2 (by norm_num), by norm_num⟩⟩

/-- The returned grid is exactly the primary lattice: every extra point's
key is already seen, so the extras phase appends nothing. -/
theorem generateOptimizedGrid_eq :
    generateOptimizedGrid =
      (latValues.map (fun lat =>
        lonValues.map (fun lon => (jsRound4 lat, jsRound4 lon)))).flatten := by
  obtain ⟨seenOut, hgrid, hseen⟩ :=
    buildGrid_eq latValues lonValues [] [] lonKeys_nodup latKeys_nodup
      (by simp) lonValues_sorted
  have hskip : ∀ p ∈ extraPoints, pointKey p ∈ seenOut := by
    intro p hp
    obtain ⟨hlat, hlon⟩ := extra_in_lattice p hp
    exact hseen _ (Or.inr ⟨p.1, hlat, p.2, hlon, rfl⟩)
  show addExtras (buildGrid latValues lonValues [] []).1 extraPoints
      (buildGrid latValues lonValues [] []).2 = _
  rw [hgrid]
  rw [addExtras_skip extraPoints _ seenOut hskip]
  simp

set_option maxRecDepth 10000 in
/-- C9. In the sequence returned by the grid generator, each of the 14
extra points appears exactly once under the 4-decimal string key, even
though its coordinates coincide with a primary grid point produced by the
nested lat/lon iteration (the `seen` check skips the duplicate append, and
the single primary occurrence remains). -/
theorem extra_points_appear_once :
    ∀ p ∈ extraPoints,
      (generateOptimizedGrid.map pointKey).count (pointKey p) = 1 := by
  have hrows : (latValues.map (fun lat =>
      lonValues.map (fun lon => (jsRound4 lat, jsRound4 lon)))).map
        (List.map pointKey) =
      latValues.map (fun lat =>
        lonValues.map (fun lon => (toKey lat, toKey lon))) := by
    rw [List.map_map]
    refine List.map_congr_left ?_
    intro lat _
    simp only [Function.comp_apply, List.map_map]
    refine List.map_congr_left ?_
    intro lon _
    simp only [Function.comp_apply, pointKey, toKey_jsRound4]
  intro p hp
  rw [generateOptimizedGrid_eq, List.map_flatten, hrows]
  simp only [pointKey]
  rw [count_pair_grid, latKeys_eq, lonKeys_eq]
  have hp' := hp
  simp only [extraPoints, List.mem_cons, List.not_mem_nil, or_false] at hp'
  rcases hp' with rfl | rfl | rfl | rfl | rfl | rfl | rfl | rfl | rfl | rfl |
    rfl | rfl | rfl | rfl <;>
    norm_num [toKey] <;>
    decide

/-- C9 witness. The Great Lakes point `[45.5, -87.0]` appears exactly
once. -/
theorem extra_points_appear_once_witness :
    (generateOptimizedGrid.map pointKey).count
      (pointKey ((45.5 : ℚ), (-87 : ℚ))) = 1 :=
  extra_points_appear_once ((45.5 : ℚ), (-87 : ℚ))
    (List.mem_cons_self _ _)

/-- C5. For the same sequence of `WeatherRecord`s, rendering with two
different hours produces rectangles at exactly the same pixel positions
and sizes; only the fill colors may differ. -/
theorem render_positions_hour_independent (proj : Option Coord → CPoint)
    (north west : ℚ) (data : List WeatherRecord) (h1 h2 : ℕ) :
    (render proj north west data h1).map (fun r => (r.x, r.y, r.w, r.h)) =
      (render proj north west data h2).map (fun r => (r.x, r.y, r.w, r.h)) := by
  simp [render, draw]

end WeatherViz
